import Mathlib

/-!
Verification of the two notebooks of this repository:
`export_api.ipynb` (dataset export from the CVAT REST API) and
`quantize_image_classification_keras_model_with_mct.ipynb` (post-training
quantization and evaluation).  Python code is shallowly embedded: pure
functions become Lean functions, filesystem state is passed explicitly,
fallible code returns `Except`, and the polling loop is modelled as a
trace of events over the list of response statuses it observes.
-/

namespace VisionSensingApp

/-! ## Symlink guard (`validate_symlink`, both notebooks)

The filesystem is abstracted as a predicate `isLink : String → Bool`
telling which paths are symbolic links.  The Python function raises
`OSError(errno.ELOOP, msg, path)` when the path is a symlink and returns
`None` otherwise. -/

/-- `errno.ELOOP` on Linux. -/
def ELOOP : Nat := 40

/-- The payload of the `OSError` raised by `validate_symlink`. -/
structure OSErrorInfo where
  errno : Nat
  msg : String
  filename : String
  deriving Repr, DecidableEq

/-- Embedding of `validate_symlink` from both notebooks: raise
`OSError(errno.ELOOP, ...)` if the path is a symlink, else return. -/
def validate_symlink (isLink : String → Bool) (path : String) :
    Except OSErrorInfo Unit :=
  if isLink path then
    .error ⟨ELOOP,
      "Symbolic link is not supported. Please use real folder or file",
      path⟩
  else
    .ok ()

/-! ## Calibration preprocessing: `normalization` -/

/-- `MEAN = 127.5` from the quantize notebook. -/
def MEAN : ℚ := 127.5

/-- `STD = 127.5` from the quantize notebook. -/
def STD : ℚ := 127.5

/-- Embedding of `normalization(x) = (x - MEAN) / STD`. -/
def normalization (x : ℚ) : ℚ := (x - MEAN) / STD

/-! ## Dataset-export polling loop

The loop body calls `retrieve_dataset` once, checks the HTTP status,
sleeps one second, and loops until the status is 200 or 201.  After the
loop, the downloaded temporary file is moved into `export_dir` unless a
file named `export_dir + filename` already exists, in which case
`FileExistsError` is raised.  We model a run of the loop as the trace of
externally visible events it produces, driven by the list of statuses the
server returns (one per iteration, in order). -/

/-- Externally visible events of the export download cell. -/
inductive Event where
  | retrieve (status : Nat)
  | sleep (seconds : Nat)
  | move
  | raiseFileExists
  deriving Repr, DecidableEq

/-- `status == 200 or status == 201`, the loop's exit condition. -/
def isSuccess (status : Nat) : Bool := status == 200 || status == 201

/-- Trace of the download cell, driven by the response statuses.  Each
iteration performs one `retrieve_dataset` call and one `time.sleep(1)`;
on a success status the loop exits and the post-loop code either moves
the temporary file or raises `FileExistsError` when the destination path
already exists (`destExists`).  An exhausted status list means the loop
is still re-polling, so the trace simply ends. -/
def downloadTrace (destExists : Bool) : List Nat → List Event
  | [] => []
  | s :: rest =>
    .retrieve s :: .sleep 1 ::
      (if isSuccess s then
        (if destExists then [.raiseFileExists] else [.move])
      else downloadTrace destExists rest)

/-- Number of `retrieve_dataset` calls in a trace. -/
def retrieveCount (trace : List Event) : Nat :=
  trace.countP (fun e => match e with | .retrieve _ => true | _ => false)

/-! ## Post-loop move of the downloaded file

The filesystem is a list of existing paths.  After the loop the code runs
`os.makedirs(export_dir)` when `export_dir` does not exist, then checks
`os.path.exists(export_dir + filename)` — a raw string concatenation with
no separator — and either `shutil.move`s the temporary file into
`export_dir` or raises `FileExistsError`. -/

/-- `os.path.exists` over the list-of-paths filesystem model. -/
def pyExists (fs : List String) (p : String) : Bool := fs.contains p

/-- `os.path.basename` for a Linux path: the part after the last `/`. -/
def pyBasename (p : String) : String := (p.splitOn "/").getLastD ""

/-- The filesystem after `os.makedirs(export_dir)` guarded by the
`not os.path.exists(export_dir)` check. -/
def afterMakedirs (fs : List String) (export_dir : String) : List String :=
  if pyExists fs export_dir then fs else export_dir :: fs

/-- Embedding of the post-loop cell tail: make the export directory if
needed, then move the temporary file into it unless
`export_dir + filename` already exists, in which case raise
`FileExistsError`.  Returns the optional error alongside the resulting
filesystem. -/
def finalizeDownload (fs : List String) (export_dir filename temp_filepath : String) :
    Option String × List String :=
  let fs1 := afterMakedirs fs export_dir
  if pyExists fs1 (export_dir ++ filename) then
    (some "FileExistsError", fs1)
  else
    (none, (export_dir ++ "/" ++ pyBasename temp_filepath) :: fs1.erase temp_filepath)

/-! ## Calibration preprocessing: `resize`

Image contents do not matter to the claimed property, only shapes, so an
image is represented by its height and width.  `np.round` rounds half to
even; `int(x / 2)` truncates toward zero; numpy slicing `a[i : j]`
normalises negative bounds and clamps, exactly as Python slices do.  All
real arithmetic of the source is carried out in `ℚ`. -/

/-- `np.round` half-to-even rounding of a rational to an integer. -/
def npRound (q : ℚ) : ℤ :=
  let fl := ⌊q⌋
  let frac := q - fl
  if frac < 1/2 then fl
  else if 1/2 < frac then fl + 1
  else if fl % 2 = 0 then fl else fl + 1

/-- `int(a / 2)` for an integer `a`: exact halving then truncation
toward zero. -/
def truncDiv2 (a : ℤ) : ℤ := if a < 0 then -((-a) / 2) else a / 2

/-- Length of the Python/numpy slice `a[i : j]` of a length-`len`
axis: negative bounds count from the end, and both bounds clamp to
`[0, len]`. -/
def pySliceLength (len : ℕ) (i j : ℤ) : ℕ :=
  let bound : ℤ → ℤ := fun k => if k < 0 then max (k + len) 0 else min k len
  (bound j - bound i).toNat

/-- `RESIZE_SCALE = 256 / input_tensor_size` from the quantize
notebook. -/
def RESIZE_SCALE (input_tensor_size : ℕ) : ℚ := 256 / input_tensor_size

/-- `resize_side = max(RESIZE_SCALE * SIZE / x.shape[0],
RESIZE_SCALE * SIZE / x.shape[1])` with `SIZE = input_tensor_size`. -/
def resize_side (S h w : ℕ) : ℚ :=
  max (RESIZE_SCALE S * S / h) (RESIZE_SCALE S * S / w)

/-- `height_tag = int(np.round(resize_side * x.shape[0]))`. -/
def height_tag (S h w : ℕ) : ℤ := npRound (resize_side S h w * h)

/-- `width_tag = int(np.round(resize_side * x.shape[1]))`. -/
def width_tag (S h w : ℕ) : ℤ := npRound (resize_side S h w * w)

/-- The shape data produced by `resize`: the resized dimensions, the
crop offsets, and the shape of the centered crop
`resized_img[offset_height : offset_height + SIZE,
offset_width : offset_width + SIZE]`. -/
structure ResizeShape where
  height_tag : ℤ
  width_tag : ℤ
  offset_height : ℤ
  offset_width : ℤ
  cropped_height : ℕ
  cropped_width : ℕ
  deriving Repr, DecidableEq

/-- Embedding of `resize` at the level of shapes: compute the scaled
dimensions, the centered offsets `int((tag - SIZE) / 2)`, and the shape
of the `SIZE`-by-`SIZE` slice of the resized image. -/
def resize (input_tensor_size h w : ℕ) : ResizeShape :=
  let S := input_tensor_size
  let ht := height_tag S h w
  let wt := width_tag S h w
  let offset_height := truncDiv2 (ht - S)
  let offset_width := truncDiv2 (wt - S)
  { height_tag := ht
    width_tag := wt
    offset_height := offset_height
    offset_width := offset_width
    cropped_height := pySliceLength ht.toNat offset_height (offset_height + S)
    cropped_width := pySliceLength wt.toNat offset_width (offset_width + S) }

/-! ## Claims C1, C8, C3, C7 -/

/-- C1: `validate_symlink` raises `OSError` with error number `ELOOP` if
and only if the path is a symbolic link, and for every non-symlink path
it returns normally. -/
theorem validate_symlink_eloop_iff (isLink : String → Bool) (path : String) :
    ((∃ e, validate_symlink isLink path = .error e ∧ e.errno = ELOOP) ↔
      isLink path = true) ∧
    (isLink path = false → validate_symlink isLink path = .ok ()) := by
  constructor
  · constructor
    · rintro ⟨e, he, _⟩
      by_contra h
      simp only [validate_symlink, Bool.not_eq_true] at he h
      rw [h] at he
      simp at he
    · intro h
      refine ⟨⟨ELOOP,
        "Symbolic link is not supported. Please use real folder or file",
        path⟩, ?_, rfl⟩
      simp [validate_symlink, h]
  · intro h
    simp [validate_symlink, h]

/-- Witness for C1 at a concrete symlink predicate and path. -/
theorem validate_symlink_eloop_iff_witness :
    (fun p => p == "link") "file" = false ∧
      validate_symlink (fun p => p == "link") "file" = .ok () :=
  ⟨by decide,
    (validate_symlink_eloop_iff (fun p => p == "link") "file").2 (by decide)⟩

/-- C8: `normalization` maps `x` to `(x - 127.5) / 127.5` with
`MEAN = STD = 127.5`; every input in `[0, 255]` lands in `[-1, 1]`, with
`0 ↦ -1`, `127.5 ↦ 0` and `255 ↦ 1`. -/
theorem normalization_range :
    MEAN = 127.5 ∧ STD = 127.5 ∧
    (∀ x : ℚ, normalization x = (x - 127.5) / 127.5) ∧
    (∀ x : ℚ, 0 ≤ x → x ≤ 255 →
      -1 ≤ normalization x ∧ normalization x ≤ 1) ∧
    normalization 0 = -1 ∧ normalization 127.5 = 0 ∧
    normalization 255 = 1 := by
  refine ⟨rfl, rfl, fun x => rfl, fun x h0 h255 => ⟨?_, ?_⟩, by norm_num [normalization, MEAN, STD], by norm_num [normalization, MEAN, STD], by norm_num [normalization, MEAN, STD]⟩
  · rw [normalization, MEAN, STD, le_div_iff₀ (by norm_num)]
    linarith
  · rw [normalization, MEAN, STD, div_le_one (by norm_num)]
    linarith

/-- Witness for C8 at the concrete input `x = 100`. -/
theorem normalization_range_witness :
    (0 : ℚ) ≤ 100 ∧ (100 : ℚ) ≤ 255 ∧
      -1 ≤ normalization 100 ∧ normalization 100 ≤ 1 :=
  ⟨by norm_num, by norm_num,
    (normalization_range.2.2.2.1 100 (by norm_num) (by norm_num)).1,
    (normalization_range.2.2.2.1 100 (by norm_num) (by norm_num)).2⟩

/-- C3: the temporary file is moved only after some `retrieve_dataset`
call returned status 200 or 201; while every status so far is neither,
the loop keeps re-polling (one retrieve per status) and no move
happens. -/
theorem move_requires_success (destExists : Bool) (statuses : List Nat) :
    (Event.move ∈ downloadTrace destExists statuses →
      ∃ s ∈ statuses, isSuccess s = true) ∧
    ((∀ s ∈ statuses, isSuccess s = false) →
      Event.move ∉ downloadTrace destExists statuses ∧
      retrieveCount (downloadTrace destExists statuses) = statuses.length) := by
  induction statuses with
  | nil => simp [downloadTrace, retrieveCount]
  | cons s rest ih =>
    constructor
    · intro hmem
      simp only [downloadTrace, List.mem_cons] at hmem
      rcases hmem with h | h | h
      · exact absurd h (by simp)
      · exact absurd h (by simp)
      · by_cases hs : isSuccess s
        · exact ⟨s, List.mem_cons_self s rest, hs⟩
        · rw [if_neg hs] at h
          obtain ⟨t, ht, hts⟩ := ih.1 h
          exact ⟨t, List.mem_cons_of_mem s ht, hts⟩
    · intro hall
      have hs : isSuccess s = false := hall s (List.mem_cons_self s rest)
      have hrest : ∀ t ∈ rest, isSuccess t = false :=
        fun t ht => hall t (List.mem_cons_of_mem s ht)
      obtain ⟨hnm, hcnt⟩ := ih.2 hrest
      have step : downloadTrace destExists (s :: rest) =
          Event.retrieve s :: Event.sleep 1 :: downloadTrace destExists rest := by
        simp [downloadTrace, hs]
      constructor
      · rw [step]
        simp only [List.mem_cons]
        rintro (h | h | h)
        · exact Event.noConfusion h
        · exact Event.noConfusion h
        · exact hnm h
      · rw [step]
        simp [retrieveCount, List.countP_cons] at hcnt ⊢
        omega

/-- Witness for C3 at the concrete status list `[404, 404]` (never
succeeds): no move, and one retrieve per status. -/
theorem move_requires_success_witness :
    Event.move ∉ downloadTrace false [404, 404] ∧
      retrieveCount (downloadTrace false [404, 404]) = [404, 404].length :=
  (move_requires_success false [404, 404]).2 (by decide)

/-- C7: every iteration performs exactly one `retrieve_dataset` call
followed by exactly one `time.sleep(1)`, whether or not the status is a
success, and the final successful iteration also sleeps before the file
is moved (or `FileExistsError` is raised). -/
theorem fixed_retry_cadence (destExists : Bool) (pre : List Nat) (s : Nat)
    (hpre : ∀ p ∈ pre, isSuccess p = false) (hs : isSuccess s = true) :
    downloadTrace destExists (pre ++ [s]) =
      (pre.map (fun p => [Event.retrieve p, Event.sleep 1])).flatten ++
        [Event.retrieve s, Event.sleep 1] ++
        (if destExists then [Event.raiseFileExists] else [Event.move]) := by
  induction pre with
  | nil => simp [downloadTrace, hs]
  | cons p rest ih =>
    have hp : isSuccess p = false := hpre p (List.mem_cons_self p rest)
    have hrest : ∀ q ∈ rest, isSuccess q = false :=
      fun q hq => hpre q (List.mem_cons_of_mem p hq)
    have step : downloadTrace destExists ((p :: rest) ++ [s]) =
        Event.retrieve p :: Event.sleep 1 ::
          downloadTrace destExists (rest ++ [s]) := by
      simp [downloadTrace, hp]
    rw [step, ih hrest]
    simp

/-- Witness for C7: two failed polls then a success, destination free. -/
theorem fixed_retry_cadence_witness :
    downloadTrace false ([404, 404] ++ [200]) =
      ([404, 404].map (fun p => [Event.retrieve p, Event.sleep 1])).flatten ++
        [Event.retrieve 200, Event.sleep 1] ++
        (if false then [Event.raiseFileExists] else [Event.move]) :=
  fixed_retry_cadence false [404, 404] 200 (by decide) (by decide)

/-! ## Claims C2, C10 -/

lemma floor_le_npRound (q : ℚ) : ⌊q⌋ ≤ npRound q := by
  simp only [npRound]
  split_ifs <;> omega

lemma le_npRound_of_le (n : ℤ) (q : ℚ) (h : (n : ℚ) ≤ q) : n ≤ npRound q :=
  le_trans (Int.le_floor.mpr h) (floor_le_npRound q)

lemma pySliceLength_centered (tag : ℤ) (S : ℕ) (h : (S : ℤ) ≤ tag) :
    pySliceLength tag.toNat (truncDiv2 (tag - S)) (truncDiv2 (tag - S) + S) = S := by
  simp only [pySliceLength, truncDiv2]
  split_ifs <;> omega

lemma resize_side_eq (S h w : ℕ) (hS : (S : ℚ) ≠ 0) :
    resize_side S h w = max (256 / (h : ℚ)) (256 / (w : ℚ)) := by
  simp only [resize_side, RESIZE_SCALE, div_mul_cancel₀ _ hS]

lemma le_tag (S h w d : ℕ) (hd : 0 < d) (_hS : (S : ℚ) ≠ 0) (hS256 : (S : ℚ) ≤ 256)
    (hmem : 256 / (d : ℚ) ≤ resize_side S h w) :
    (S : ℤ) ≤ npRound (resize_side S h w * d) := by
  have hdQ : (0 : ℚ) < d := by exact_mod_cast hd
  have h256 : (256 : ℚ) ≤ resize_side S h w * d := by
    calc (256 : ℚ) = 256 / d * d := (div_mul_cancel₀ _ (ne_of_gt hdQ)).symm
    _ ≤ resize_side S h w * d := mul_le_mul_of_nonneg_right hmem (le_of_lt hdQ)
  have h1 : (256 : ℤ) ≤ npRound (resize_side S h w * d) :=
    le_npRound_of_le 256 _ (by exact_mod_cast h256)
  have h2 : (S : ℤ) ≤ 256 := by exact_mod_cast hS256
  omega

/-- C2: whenever the image has positive height and width and
`RESIZE_SCALE = 256 / input_tensor_size` is at least 1, the crop
produced by `resize` is exactly `input_tensor_size` by
`input_tensor_size`, and both scaled dimensions
`int(np.round(resize_side * shape))` are at least `SIZE`. -/
theorem resize_output_size (S h w : ℕ) (hh : 0 < h) (hw : 0 < w)
    (hscale : (1 : ℚ) ≤ 256 / (S : ℚ)) :
    (resize S h w).cropped_height = S ∧ (resize S h w).cropped_width = S ∧
    (S : ℤ) ≤ (resize S h w).height_tag ∧ (S : ℤ) ≤ (resize S h w).width_tag := by
  have hS0 : S ≠ 0 := by
    rintro rfl
    norm_num at hscale
  have hSQpos : (0 : ℚ) < S := by exact_mod_cast Nat.pos_of_ne_zero hS0
  have hSQ : (S : ℚ) ≠ 0 := ne_of_gt hSQpos
  have hS256 : (S : ℚ) ≤ 256 := by
    have := (le_div_iff₀ hSQpos).mp hscale
    linarith
  have hht : (S : ℤ) ≤ height_tag S h w := by
    apply le_tag S h w h hh hSQ hS256
    · rw [resize_side_eq S h w hSQ]
      exact le_max_left _ _
  have hwt : (S : ℤ) ≤ width_tag S h w := by
    apply le_tag S h w w hw hSQ hS256
    · rw [resize_side_eq S h w hSQ]
      exact le_max_right _ _
  refine ⟨?_, ?_, hht, hwt⟩
  · exact pySliceLength_centered (height_tag S h w) S hht
  · exact pySliceLength_centered (width_tag S h w) S hwt

/-- Witness for C2 at the concrete shape `h = 2`, `w = 1`,
`input_tensor_size = 200`. -/
theorem resize_output_size_witness :
    0 < 2 ∧ 0 < 1 ∧ (1 : ℚ) ≤ 256 / ((200 : ℕ) : ℚ) ∧
      ((resize 200 2 1).cropped_height = 200 ∧
        (resize 200 2 1).cropped_width = 200 ∧
        ((200 : ℕ) : ℤ) ≤ (resize 200 2 1).height_tag ∧
        ((200 : ℕ) : ℤ) ≤ (resize 200 2 1).width_tag) :=
  ⟨by norm_num, by norm_num, by norm_num,
    resize_output_size 200 2 1 (by norm_num) (by norm_num) (by norm_num)⟩

/-- C10: the temporary file is moved only when the raw concatenation
`export_dir + filename` does not exist (after the `makedirs` step);
otherwise `FileExistsError` is raised and the temporary file's existence
is unchanged. -/
theorem move_guard (fs : List String) (export_dir filename temp_filepath : String)
    (hne : temp_filepath ≠ export_dir) :
    ((finalizeDownload fs export_dir filename temp_filepath).1 = none ↔
      pyExists (afterMakedirs fs export_dir) (export_dir ++ filename) = false) ∧
    (pyExists (afterMakedirs fs export_dir) (export_dir ++ filename) = true →
      (finalizeDownload fs export_dir filename temp_filepath).1 =
        some "FileExistsError" ∧
      pyExists (finalizeDownload fs export_dir filename temp_filepath).2
          temp_filepath =
        pyExists fs temp_filepath) := by
  constructor
  · unfold finalizeDownload
    by_cases hex : pyExists (afterMakedirs fs export_dir) (export_dir ++ filename) <;>
      simp [hex]
  · intro hex
    constructor
    · unfold finalizeDownload
      simp [hex]
    · unfold finalizeDownload
      simp only [hex, if_pos]
      unfold afterMakedirs
      by_cases hed : pyExists fs export_dir
      · simp [hed]
      · simp only [hed, if_neg, Bool.false_eq_true, not_false_iff]
        simp [pyExists, List.contains_cons, hne]

/-- Witness for C10: the destination name already exists, so the move
raises and the temporary file stays. -/
theorem move_guard_witness :
    "/tmp/t" ≠ "out/" ∧
      (pyExists (afterMakedirs ["out/f.zip", "/tmp/t"] "out/") ("out/" ++ "f.zip") = true →
        (finalizeDownload ["out/f.zip", "/tmp/t"] "out/" "f.zip" "/tmp/t").1 =
          some "FileExistsError" ∧
        pyExists (finalizeDownload ["out/f.zip", "/tmp/t"] "out/" "f.zip" "/tmp/t").2
            "/tmp/t" =
          pyExists ["out/f.zip", "/tmp/t"] "/tmp/t") :=
  ⟨by decide, (move_guard ["out/f.zip", "/tmp/t"] "out/" "f.zip" "/tmp/t" (by decide)).2⟩

/-! ## Natural sort (`atoi` / `natural_keys`)

Strings are lists of characters.  `re.split(r"(\d+)", text)` splits the
string on maximal digit runs and keeps the captured runs, producing an
alternating list `[text, digits, text, digits, ..., text]` whose text
chunks (possibly empty) contain no digits and whose digit chunks are
non-empty.  `atoi` converts a chunk to an integer exactly when Python's
`str.isdigit` holds, i.e. the chunk is non-empty and all digits.
Python's list and value comparisons are modelled by `pyListCompare`,
which returns `none` exactly where Python would raise `TypeError`. -/

lemma length_dropWhile_le {α : Type} (p : α → Bool) (l : List α) :
    (l.dropWhile p).length ≤ l.length := by
  induction l with
  | nil => simp
  | cons a l ih =>
    rw [List.dropWhile_cons]
    split_ifs
    · exact Nat.le_trans ih (by simp)
    · simp

lemma dropWhile_head_false {α : Type} (p : α → Bool) (l : List α) :
    ∀ c ∈ (l.dropWhile p).head?, p c = false := by
  induction l with
  | nil => simp
  | cons a l ih =>
    rw [List.dropWhile_cons]
    split_ifs with h
    · exact ih
    · simpa using h

/-- `re.split(r"(\d+)", text)`: the maximal digit runs of `text`
interleaved with the (possibly empty) non-digit chunks between them. -/
def reSplitDigits (l : List Char) : List (List Char) :=
  let text := l.takeWhile (fun c => !c.isDigit)
  let rest := l.dropWhile (fun c => !c.isDigit)
  if rest.isEmpty then [text]
  else text :: rest.takeWhile Char.isDigit :: reSplitDigits (rest.dropWhile Char.isDigit)
termination_by l.length
decreasing_by
  rename_i hne
  rw [List.isEmpty_iff] at hne
  have hlen : (l.dropWhile (fun c => !c.isDigit)).length ≤ l.length :=
    length_dropWhile_le _ l
  rcases hrest : l.dropWhile (fun c => !c.isDigit) with _ | ⟨c, cs⟩
  · exact absurd hrest hne
  · have hc : (!c.isDigit) = false := by
      have := dropWhile_head_false (fun c => !c.isDigit) l
      rw [hrest] at this
      simpa using this c rfl
    have hc2 : c.isDigit = true := by simpa using hc
    rw [hrest, List.dropWhile_cons, if_pos hc2]
    have h2 : (cs.dropWhile Char.isDigit).length ≤ cs.length :=
      length_dropWhile_le _ cs
    rw [hrest] at hlen
    simp only [List.length_cons] at hlen
    omega

/-- A chunk of a natural-sort key: a text chunk, or the integer value of
a digit run after `atoi`. -/
inductive Chunk where
  | str (chars : List Char)
  | num (value : ℕ)
  deriving Repr, DecidableEq

/-- Whether a key chunk is a text chunk. -/
def Chunk.isStr : Chunk → Bool
  | .str _ => true
  | .num _ => false

/-- `int(text)` for a string of decimal digits. -/
def digitsToNat (cs : List Char) : ℕ :=
  cs.foldl (fun acc c => 10 * acc + (c.toNat - 48)) 0

/-- `atoi(text) = int(text) if text.isdigit() else text`:
`str.isdigit` holds exactly for non-empty all-digit strings. -/
def atoi (cs : List Char) : Chunk :=
  if !cs.isEmpty && cs.all Char.isDigit then .num (digitsToNat cs) else .str cs

/-- `natural_keys(text) = [atoi(c) for c in re.split(r"(\d+)", text)]`. -/
def natural_keys (l : List Char) : List Chunk :=
  (reSplitDigits l).map atoi

/-- Python string comparison: lexicographic on code points. -/
def pyStrCompare : List Char → List Char → Ordering
  | [], [] => .eq
  | [], _ :: _ => .lt
  | _ :: _, [] => .gt
  | a :: as, b :: bs =>
    if a.toNat < b.toNat then .lt
    else if b.toNat < a.toNat then .gt
    else pyStrCompare as bs

/-- Python integer comparison. -/
def pyNatCompare (m n : ℕ) : Ordering :=
  if m < n then .lt else if n < m then .gt else .eq

/-- Comparison of two key chunks; `none` models Python's `TypeError`
for a string-versus-integer comparison. -/
def chunkCompare : Chunk → Chunk → Option Ordering
  | .str a, .str b => some (pyStrCompare a b)
  | .num a, .num b => some (pyNatCompare a b)
  | .str _, .num _ => none
  | .num _, .str _ => none

/-- Python list comparison, element by element; a shorter list that is a
prefix of the other compares less; `none` propagates a `TypeError`. -/
def pyListCompare : List Chunk → List Chunk → Option Ordering
  | [], [] => some .eq
  | [], _ :: _ => some .lt
  | _ :: _, [] => some .gt
  | a :: as, b :: bs =>
    match chunkCompare a b with
    | none => none
    | some .eq => pyListCompare as bs
    | some .lt => some .lt
    | some .gt => some .gt

/-- `key1 < key2` for Python's sort. -/
def pyKeyLt (k1 k2 : List Chunk) : Prop := pyListCompare k1 k2 = some .lt

lemma pyStrCompare_self (l : List Char) : pyStrCompare l l = .eq := by
  induction l with
  | nil => rfl
  | cons a as ih => simp [pyStrCompare, ih]

lemma chunkCompare_self (c : Chunk) : chunkCompare c c = some .eq := by
  cases c with
  | str a => simp [chunkCompare, pyStrCompare_self]
  | num n => simp [chunkCompare, pyNatCompare]

lemma pyListCompare_self (k : List Chunk) : pyListCompare k k = some .eq := by
  induction k with
  | nil => rfl
  | cons c cs ih => simp [pyListCompare, chunkCompare_self c, ih]

lemma pyListCompare_append_left (P k1 k2 : List Chunk) :
    pyListCompare (P ++ k1) (P ++ k2) = pyListCompare k1 k2 := by
  induction P with
  | nil => rfl
  | cons c cs ih =>
    simp [pyListCompare, chunkCompare_self c, ih]

/-- The shape every `natural_keys` output has: text chunks at even
positions, digit-run values at odd positions. -/
inductive Alternating : List Chunk → Prop where
  | nil : Alternating []
  | single (s : List Char) : Alternating [.str s]
  | cons (s : List Char) (n : ℕ) (rest : List Chunk) :
      Alternating rest → Alternating (.str s :: .num n :: rest)

lemma atoi_of_no_digit (cs : List Char) (h : ∀ c ∈ cs, c.isDigit = false) :
    atoi cs = .str cs := by
  cases cs with
  | nil => rfl
  | cons a as =>
    have ha : a.isDigit = false := h a (List.mem_cons_self a as)
    simp [atoi, List.all_cons, ha]

lemma atoi_of_digits (cs : List Char) (hne : cs ≠ [])
    (h : ∀ c ∈ cs, c.isDigit = true) : atoi cs = .num (digitsToNat cs) := by
  cases cs with
  | nil => exact absurd rfl hne
  | cons a as =>
    simp only [atoi, List.isEmpty_cons, Bool.not_false, Bool.true_and]
    rw [if_pos]
    exact List.all_eq_true.mpr h

lemma alternating_natural_keys_aux :
    ∀ n (l : List Char), l.length ≤ n → Alternating (natural_keys l) := by
  intro n
  induction n with
  | zero =>
    intro l hl
    have : l = [] := List.length_eq_zero.mp (Nat.le_zero.mp hl)
    subst this
    show Alternating ((reSplitDigits []).map atoi)
    rw [reSplitDigits]
    exact Alternating.single []
  | succ n ih =>
    intro l hl
    show Alternating ((reSplitDigits l).map atoi)
    rw [reSplitDigits]
    by_cases hre : (l.dropWhile (fun c => !c.isDigit)).isEmpty
    · simp only [hre, if_pos]
      rw [List.map_singleton, atoi_of_no_digit]
      · exact Alternating.single _
      · intro c hc
        have hp := List.mem_takeWhile_imp hc
        simpa using hp
    · simp only [hre, if_neg, Bool.false_eq_true, not_false_iff]
      rw [List.map_cons, List.map_cons]
      rw [atoi_of_no_digit _ (fun c hc => by simpa using List.mem_takeWhile_imp hc)]
      rw [atoi_of_digits _ ?hne (fun c hc => by simpa using List.mem_takeWhile_imp hc)]
      case hne =>
        rcases hrest : l.dropWhile (fun c => !c.isDigit) with _ | ⟨c, cs⟩
        · rw [hrest] at hre
          simp at hre
        · have hc : (!c.isDigit) = false := by
            have := dropWhile_head_false (fun c => !c.isDigit) l
            rw [hrest] at this
            simpa using this c rfl
          have hc2 : c.isDigit = true := by simpa using hc
          rw [hrest, List.takeWhile_cons, if_pos hc2]
          simp
      · refine Alternating.cons _ _ _ (ih _ ?_)
        rcases hrest : l.dropWhile (fun c => !c.isDigit) with _ | ⟨c, cs⟩
        · rw [hrest] at hre
          simp at hre
        · have hc : (!c.isDigit) = false := by
            have := dropWhile_head_false (fun c => !c.isDigit) l
            rw [hrest] at this
            simpa using this c rfl
          have hc2 : c.isDigit = true := by simpa using hc
          have hlen : (l.dropWhile (fun c => !c.isDigit)).length ≤ l.length :=
            length_dropWhile_le _ l
          rw [hrest] at hlen
          simp only [List.length_cons] at hlen
          rw [hrest, List.dropWhile_cons, if_pos hc2]
          have h2 : (cs.dropWhile Char.isDigit).length ≤ cs.length :=
            length_dropWhile_le _ cs
          omega

lemma alternating_natural_keys (l : List Char) : Alternating (natural_keys l) :=
  alternating_natural_keys_aux l.length l le_rfl

lemma alternating_get (k : List Chunk) (hk : Alternating k) :
    ∀ i (h : i < k.length),
      (i % 2 = 0 → (k.get ⟨i, h⟩).isStr = true) ∧
      (i % 2 = 1 → (k.get ⟨i, h⟩).isStr = false) := by
  induction hk with
  | nil =>
    intro i h
    simp at h
  | single s =>
    intro i h
    simp only [List.length_singleton] at h
    interval_cases i
    simp [Chunk.isStr]
  | cons s n rest hrest ih =>
    intro i h
    match i with
    | 0 => simp [Chunk.isStr]
    | 1 => simp [Chunk.isStr]
    | Nat.succ (Nat.succ j) =>
      have hj : j < rest.length := by
        simp only [List.length_cons] at h
        omega
      have := ih j hj
      rw [List.get_cons_succ, List.get_cons_succ]
      constructor
      · intro hmod
        exact this.1 (by omega)
      · intro hmod
        exact this.2 (by omega)

lemma pyListCompare_total (k1 : List Chunk) (h1 : Alternating k1) :
    ∀ k2, Alternating k2 → pyListCompare k1 k2 ≠ none := by
  induction h1 with
  | nil =>
    intro k2 h2
    cases h2 <;> simp [pyListCompare]
  | single s =>
    intro k2 h2
    cases h2 with
    | nil => simp [pyListCompare]
    | single t =>
      simp only [pyListCompare, chunkCompare]
      cases pyStrCompare s t <;> simp [pyListCompare]
    | cons t m rest hrest =>
      simp only [pyListCompare, chunkCompare]
      cases pyStrCompare s t <;> simp [pyListCompare]
  | cons s n rest hrest ih =>
    intro k2 h2
    cases h2 with
    | nil => simp [pyListCompare]
    | single t =>
      simp only [pyListCompare, chunkCompare]
      cases pyStrCompare s t <;> simp [pyListCompare]
    | cons t m rest2 hrest2 =>
      simp only [pyListCompare, chunkCompare]
      cases pyStrCompare s t <;> simp [pyListCompare]
      cases hnm : pyNatCompare n m <;> simp [pyListCompare]
      exact ih rest2 hrest2

/-! ## Claims C9, C4 -/

/-- C9: every `natural_keys` output has string chunks at even indices
and integer chunks at odd indices, so Python's element-by-element list
comparison of two keys only ever compares string with string or integer
with integer and never raises `TypeError` (modelled as `none`). -/
theorem natural_keys_total (s t : List Char) :
    (∀ i (h : i < (natural_keys s).length),
      (i % 2 = 0 → ((natural_keys s).get ⟨i, h⟩).isStr = true) ∧
      (i % 2 = 1 → ((natural_keys s).get ⟨i, h⟩).isStr = false)) ∧
    pyListCompare (natural_keys s) (natural_keys t) ≠ none :=
  ⟨alternating_get _ (alternating_natural_keys s),
    pyListCompare_total _ (alternating_natural_keys s) _
      (alternating_natural_keys t)⟩

/-- Witness for C9 at the concrete filenames `file2` and `file10`. -/
theorem natural_keys_total_witness :
    pyListCompare (natural_keys "file2".data) (natural_keys "file10".data) ≠
      none :=
  (natural_keys_total "file2".data "file10".data).2

lemma reSplitDigits_decompose (u d v : List Char)
    (hu : ∀ c ∈ u, c.isDigit = false)
    (hd : d ≠ []) (hdall : ∀ c ∈ d, c.isDigit = true)
    (hv : ∀ c ∈ v.head?, c.isDigit = false) :
    reSplitDigits (u ++ d ++ v) = u :: d :: reSplitDigits v := by
  obtain ⟨c, cs, rfl⟩ := List.exists_cons_of_ne_nil hd
  have hc : c.isDigit = true := hdall c (by simp)
  have htu : u.takeWhile (fun x => !x.isDigit) = u :=
    List.takeWhile_eq_self_iff.mpr (by intro x hx; simp [hu x hx])
  have hdu : u.dropWhile (fun x => !x.isDigit) = [] :=
    List.dropWhile_eq_nil_iff.mpr (by intro x hx; simp [hu x hx])
  have htcs : (c :: cs).takeWhile Char.isDigit = c :: cs :=
    List.takeWhile_eq_self_iff.mpr hdall
  have hdcs : (c :: cs).dropWhile Char.isDigit = [] :=
    List.dropWhile_eq_nil_iff.mpr hdall
  have htake : (u ++ (c :: cs) ++ v).takeWhile (fun x => !x.isDigit) = u := by
    rw [List.append_assoc, List.takeWhile_append, htu]
    simp [List.takeWhile_cons, hc]
  have hdrop : (u ++ (c :: cs) ++ v).dropWhile (fun x => !x.isDigit) =
      (c :: cs) ++ v := by
    rw [List.append_assoc, List.dropWhile_append, hdu]
    simp [List.dropWhile_cons, hc]
  have htake2 : ((c :: cs) ++ v).takeWhile Char.isDigit = c :: cs := by
    rw [List.takeWhile_append, htcs]
    rcases v with _ | ⟨e, es⟩
    · simp
    · have he : e.isDigit = false := by simpa using hv e rfl
      simp [List.takeWhile_cons, he]
  have hdrop2 : ((c :: cs) ++ v).dropWhile Char.isDigit = v := by
    rw [List.dropWhile_append, hdcs]
    rcases v with _ | ⟨e, es⟩
    · simp
    · have he : e.isDigit = false := by simpa using hv e rfl
      simp [List.dropWhile_cons, he]
  rw [reSplitDigits]
  simp only [htake, hdrop]
  rw [if_neg (by simp)]
  rw [htake2, hdrop2]

lemma reSplitDigits_no_digit (u : List Char)
    (hu : ∀ c ∈ u, c.isDigit = false) : reSplitDigits u = [u] := by
  have ht : u.takeWhile (fun c => !c.isDigit) = u :=
    List.takeWhile_eq_self_iff.mpr (by intro x hx; simp [hu x hx])
  have hdp : u.dropWhile (fun c => !c.isDigit) = [] :=
    List.dropWhile_eq_nil_iff.mpr (by intro x hx; simp [hu x hx])
  rw [reSplitDigits]
  simp [ht, hdp]

lemma reSplitDigits_insert_aux :
    ∀ (n : ℕ) (u : List Char), u.length ≤ n →
      (∀ c ∈ u.getLast?, c.isDigit = false) →
      ∃ pre t, reSplitDigits u = pre ++ [t] ∧
        ∀ d v : List Char, d ≠ [] → (∀ c ∈ d, c.isDigit = true) →
          (∀ c ∈ v.head?, c.isDigit = false) →
          reSplitDigits (u ++ d ++ v) = pre ++ t :: d :: reSplitDigits v := by
  intro n
  induction n with
  | zero =>
    intro u hl _
    have hu0 : u = [] := List.length_eq_zero.mp (Nat.le_zero.mp hl)
    subst hu0
    refine ⟨[], [], by rw [reSplitDigits_no_digit [] (by simp)]; rfl, ?_⟩
    intro d v hd hdall hv
    simpa using reSplitDigits_decompose [] d v (by simp) hd hdall hv
  | succ n ih =>
    intro u hl hu
    by_cases hall : ∀ c ∈ u, c.isDigit = false
    · refine ⟨[], u, by rw [reSplitDigits_no_digit u hall]; rfl, ?_⟩
      intro d v hd hdall hv
      simpa using reSplitDigits_decompose u d v hall hd hdall hv
    · have hrest_ne : u.dropWhile (fun c => !c.isDigit) ≠ [] := by
        intro h0
        apply hall
        intro c hc
        have := List.dropWhile_eq_nil_iff.mp h0 c hc
        simpa using this
      obtain ⟨c, cs, hrest⟩ := List.exists_cons_of_ne_nil hrest_ne
      have hc : c.isDigit = true := by
        have := dropWhile_head_false (fun c => !c.isDigit) u
        rw [hrest] at this
        simpa using this c rfl
      have ht0all : ∀ x ∈ u.takeWhile (fun c => !c.isDigit), x.isDigit = false := by
        intro x hx
        simpa using List.mem_takeWhile_imp hx
      have hd0ne : (c :: cs).takeWhile Char.isDigit ≠ [] := by
        rw [List.takeWhile_cons, if_pos hc]
        simp
      have hd0all : ∀ x ∈ (c :: cs).takeWhile Char.isDigit, x.isDigit = true :=
        fun x hx => List.mem_takeWhile_imp hx
      have hu2head : ∀ x ∈ ((c :: cs).dropWhile Char.isDigit).head?,
          x.isDigit = false := dropWhile_head_false Char.isDigit (c :: cs)
      have hsplit : u = u.takeWhile (fun c => !c.isDigit) ++
          (c :: cs).takeWhile Char.isDigit ++ (c :: cs).dropWhile Char.isDigit := by
        rw [List.append_assoc, List.takeWhile_append_dropWhile, ← hrest,
          List.takeWhile_append_dropWhile]
      have hu2ne : (c :: cs).dropWhile Char.isDigit ≠ [] := by
        intro h0
        obtain ⟨a, ha⟩ : ∃ a, ((c :: cs).takeWhile Char.isDigit).getLast? = some a := by
          rcases hd0 : (c :: cs).takeWhile Char.isDigit with _ | ⟨x, xs⟩
          · exact absurd hd0 hd0ne
          · exact ⟨(x :: xs).getLast (by simp), List.getLast?_eq_getLast _ _⟩
        have hadig : a.isDigit = true :=
          hd0all a (List.mem_of_mem_getLast? (by simp [ha]))
        have hulast : u.getLast? = some a := by
          rw [hsplit, h0, List.append_nil,
            List.getLast?_append_of_ne_nil _ hd0ne, ha]
        have := hu a (by simp [hulast])
        rw [hadig] at this
        exact Bool.noConfusion this
      have hlen2 : ((c :: cs).dropWhile Char.isDigit).length ≤ n := by
        have h1 : (u.dropWhile (fun c => !c.isDigit)).length ≤ u.length :=
          length_dropWhile_le _ u
        rw [hrest] at h1
        have h2 : ((c :: cs).dropWhile Char.isDigit).length ≤ cs.length := by
          rw [List.dropWhile_cons, if_pos hc]
          exact length_dropWhile_le _ cs
        simp only [List.length_cons] at h1
        omega
      have hu2last : ∀ x ∈ ((c :: cs).dropWhile Char.isDigit).getLast?,
          x.isDigit = false := by
        intro x hx
        apply hu
        rw [hsplit, List.getLast?_append_of_ne_nil _ hu2ne]
        exact hx
      obtain ⟨pre2, t2, hpre2, hins2⟩ := ih _ hlen2 hu2last
      refine ⟨u.takeWhile (fun c => !c.isDigit) ::
        (c :: cs).takeWhile Char.isDigit :: pre2, t2, ?_, ?_⟩
      · conv_lhs => rw [hsplit]
        rw [reSplitDigits_decompose _ _ _ ht0all hd0ne hd0all hu2head, hpre2]
        simp
      · intro d v hd hdall hv
        have hvhead : ∀ x ∈ ((c :: cs).dropWhile Char.isDigit ++ d ++ v).head?,
            x.isDigit = false := by
          rcases he2 : (c :: cs).dropWhile Char.isDigit with _ | ⟨e, es⟩
          · exact absurd he2 hu2ne
          · intro x hx
            simp only [List.cons_append, List.head?_cons] at hx
            have he : e.isDigit = false := by
              have := hu2head e
              rw [he2] at this
              simpa using this
            simp only [Option.mem_def, Option.some.injEq] at hx
            rw [← hx]
            exact he
        have hrw : u ++ d ++ v = u.takeWhile (fun c => !c.isDigit) ++
            (c :: cs).takeWhile Char.isDigit ++
            ((c :: cs).dropWhile Char.isDigit ++ d ++ v) := by
          conv_lhs => rw [hsplit]
          simp only [List.append_assoc]
        rw [hrw, reSplitDigits_decompose _ _ _ ht0all hd0ne hd0all hvhead,
          hins2 d v hd hdall hv]
        simp

lemma reSplitDigits_insert (u : List Char)
    (hu : ∀ c ∈ u.getLast?, c.isDigit = false) :
    ∃ pre t, reSplitDigits u = pre ++ [t] ∧
      ∀ d v : List Char, d ≠ [] → (∀ c ∈ d, c.isDigit = true) →
        (∀ c ∈ v.head?, c.isDigit = false) →
        reSplitDigits (u ++ d ++ v) = pre ++ t :: d :: reSplitDigits v :=
  reSplitDigits_insert_aux u.length u le_rfl hu

/-- C4: for two filenames that differ only in one maximal digit run —
anywhere in the name, so the character just before the run (if any) is a
non-digit and the character just after it is a non-digit — sorting with
`key=natural_keys` orders them by the numeric value of the run, not by
lexicographic character order. -/
theorem natural_sort_by_value (u d1 d2 v : List Char)
    (hu : ∀ c ∈ u.getLast?, c.isDigit = false)
    (hd1 : d1 ≠ []) (hd1all : ∀ c ∈ d1, c.isDigit = true)
    (hd2 : d2 ≠ []) (hd2all : ∀ c ∈ d2, c.isDigit = true)
    (hv : ∀ c ∈ v.head?, c.isDigit = false) :
    pyKeyLt (natural_keys (u ++ d1 ++ v)) (natural_keys (u ++ d2 ++ v)) ↔
      digitsToNat d1 < digitsToNat d2 := by
  obtain ⟨pre, t, hpre, hins⟩ := reSplitDigits_insert u hu
  have h1 : natural_keys (u ++ d1 ++ v) =
      (pre.map atoi ++ [atoi t]) ++
        Chunk.num (digitsToNat d1) :: natural_keys v := by
    rw [natural_keys, hins d1 v hd1 hd1all hv, List.map_append, List.map_cons,
      List.map_cons, atoi_of_digits d1 hd1 hd1all]
    simp [natural_keys, List.append_assoc]
  have h2 : natural_keys (u ++ d2 ++ v) =
      (pre.map atoi ++ [atoi t]) ++
        Chunk.num (digitsToNat d2) :: natural_keys v := by
    rw [natural_keys, hins d2 v hd2 hd2all hv, List.map_append, List.map_cons,
      List.map_cons, atoi_of_digits d2 hd2 hd2all]
    simp [natural_keys, List.append_assoc]
  rw [pyKeyLt, h1, h2, pyListCompare_append_left]
  simp only [pyListCompare, chunkCompare]
  constructor
  · intro h
    by_contra hlt
    push_neg at hlt
    rcases Nat.lt_or_ge (digitsToNat d2) (digitsToNat d1) with hgt | hge
    · simp only [pyNatCompare, if_neg (by omega : ¬digitsToNat d1 < digitsToNat d2),
        if_pos hgt] at h
      exact Option.noConfusion h (fun he => Ordering.noConfusion he)
    · have heq : digitsToNat d1 = digitsToNat d2 := by omega
      simp only [pyNatCompare, heq, lt_irrefl, if_neg (lt_irrefl _)] at h
      rw [pyListCompare_self] at h
      exact Option.noConfusion h (fun he => Ordering.noConfusion he)
  · intro h
    simp [pyNatCompare, h]

/-- Witness for C4 at a digit run that is not the first run of the
name: `"a1b2"` sorts before `"a1b10"` because `2 < 10`. -/
theorem natural_sort_by_value_witness :
    pyKeyLt (natural_keys "a1b2".data) (natural_keys "a1b10".data) :=
  (natural_sort_by_value "a1b".data "2".data "10".data []
    (by intro c hc; simp at hc; subst hc; decide)
    (by decide) (by decide) (by decide) (by decide)
    (by intro c hc; simp at hc)).mpr (by decide)

/-! ## TFLite evaluation (`evaluate_tflite_model`)

The interpreter is abstracted as a function from a test image to its
output vector; `np.argmax` returns the first index of the maximum.  The
accuracy loop indexes `ground_truth_ids[index]` for each
`index in range(len(predictions))`, which raises `IndexError` when the
ground-truth list is shorter; `accurate_count * 1.0 / len(predictions)`
raises `ZeroDivisionError` on an empty prediction list.  Both failure
modes are modelled in `Except`. -/

/-- `np.argmax`: index of the first occurrence of the maximum.  The
accumulator carries the best index and value seen so far. -/
def npArgmaxGo (i bestIdx : ℕ) (bestVal : ℚ) : List ℚ → ℕ
  | [] => bestIdx
  | y :: ys =>
    if bestVal < y then npArgmaxGo (i + 1) i y ys
    else npArgmaxGo (i + 1) bestIdx bestVal ys

/-- `np.argmax` of an output vector (0 on the empty vector, which the
real function rejects; the claims only apply it to model outputs). -/
def npArgmax : List ℚ → ℕ
  | [] => 0
  | x :: xs => npArgmaxGo 1 0 x xs

/-- Python list indexing `l[i]`: `IndexError` when out of range. -/
def pyIndex (l : List ℕ) (i : ℕ) : Except String ℕ :=
  match l.get? i with
  | some v => .ok v
  | none => .error "IndexError"

/-- The accuracy loop `for index in range(len(predictions)): ...`
counting indices where the prediction equals the ground-truth id. -/
def countAccurate (predictions ground_truth_ids : List ℕ) :
    Except String ℕ :=
  (List.range predictions.length).foldlM
    (fun acc index => do
      let p ← pyIndex predictions index
      let g ← pyIndex ground_truth_ids index
      pure (if p = g then acc + 1 else acc))
    0

/-- Embedding of `evaluate_tflite_model`: run the interpreter on every
image in order, take the argmax of each output, count positional
matches against `ground_truth_ids`, and divide by the number of
predictions. -/
def evaluate_tflite_model {α : Type} (interpreterOutput : α → List ℚ)
    (ground_truth_ids : List ℕ) (images : List α) : Except String ℚ := do
  let predictions := images.map (fun img => npArgmax (interpreterOutput img))
  let accurate_count ← countAccurate predictions ground_truth_ids
  if predictions.length = 0 then
    .error "ZeroDivisionError"
  else
    pure ((accurate_count : ℚ) / (predictions.length : ℚ))

lemma exceptOkBind {β γ : Type} (a : β) (f : β → Except String γ) :
    (Except.ok a : Except String β) >>= f = f a := rfl

lemma exceptPureBind {β γ : Type} (a : β) (f : β → Except String γ) :
    (pure a : Except String β) >>= f = f a := rfl

lemma countAccurate_fold (preds gt : List ℕ) (hlen : preds.length ≤ gt.length) :
    ∀ (idxs : List ℕ) (acc : ℕ), (∀ i ∈ idxs, i < preds.length) →
      idxs.foldlM
        (fun acc index => do
          let p ← pyIndex preds index
          let g ← pyIndex gt index
          pure (if p = g then acc + 1 else acc))
        acc =
      Except.ok (acc + idxs.countP (fun i => preds.getD i 0 == gt.getD i 0)) := by
  intro idxs
  induction idxs with
  | nil =>
    intro acc _
    rfl
  | cons i is ih =>
    intro acc hmem
    have hi : i < preds.length := hmem i (List.mem_cons_self i is)
    have hig : i < gt.length := lt_of_lt_of_le hi hlen
    have hp : pyIndex preds i = .ok (preds.getD i 0) := by
      rw [pyIndex, List.get?_eq_getElem?, List.getElem?_eq_getElem hi]
      rw [List.getD_eq_getElem _ _ hi]
    have hg : pyIndex gt i = .ok (gt.getD i 0) := by
      rw [pyIndex, List.get?_eq_getElem?, List.getElem?_eq_getElem hig]
      rw [List.getD_eq_getElem _ _ hig]
    rw [List.foldlM_cons]
    simp only [hp, hg, exceptOkBind, exceptPureBind]
    rw [ih _ (fun j hj => hmem j (List.mem_cons_of_mem i hj))]
    rw [List.countP_cons]
    by_cases heq : preds.getD i 0 = gt.getD i 0
    · rw [if_pos heq, if_pos (by simpa using heq)]
      exact congrArg Except.ok (by omega)
    · rw [if_neg heq, if_neg (by simpa using heq)]
      exact congrArg Except.ok (by omega)

lemma range_countP_eq_zip_countP (preds : List ℕ) :
    ∀ gt : List ℕ, preds.length ≤ gt.length →
      (List.range preds.length).countP
          (fun i => preds.getD i 0 == gt.getD i 0) =
        (preds.zip gt).countP (fun p => p.1 == p.2) := by
  induction preds with
  | nil =>
    intro gt _
    simp
  | cons p ps ih =>
    intro gt hlen
    rcases gt with _ | ⟨g, gs⟩
    · simp at hlen
    · rw [List.length_cons, List.range_succ_eq_map, List.countP_cons,
        List.countP_map, List.zip_cons_cons, List.countP_cons]
      have hlen2 : ps.length ≤ gs.length := by
        simp only [List.length_cons] at hlen
        omega
      have : List.countP
          ((fun i => (p :: ps).getD i 0 == (g :: gs).getD i 0) ∘ Nat.succ)
          (List.range ps.length) =
          List.countP (fun i => ps.getD i 0 == gs.getD i 0)
            (List.range ps.length) := by
        apply List.countP_congr
        intro i _
        simp [Function.comp, List.getD_cons_succ]
      rw [this, ih gs hlen2]
      simp [List.getD]

lemma countAccurate_eq (preds gt : List ℕ) (hlen : preds.length ≤ gt.length) :
    countAccurate preds gt =
      .ok ((preds.zip gt).countP (fun p => p.1 == p.2)) := by
  rw [countAccurate,
    countAccurate_fold preds gt hlen (List.range preds.length) 0
      (fun i hi => List.mem_range.mp hi),
    Nat.zero_add, range_countP_eq_zip_countP preds gt hlen]

/-- C6: on a non-empty image list with positionally paired ground-truth
ids, `evaluate_tflite_model` returns exactly (number of indices whose
argmax prediction equals the ground-truth id) / (number of images), a
rational in `[0, 1]`. -/
theorem evaluate_top1_accuracy {α : Type} (interpreterOutput : α → List ℚ)
    (ground_truth_ids : List ℕ) (images : List α)
    (hne : images ≠ []) (hlen : images.length = ground_truth_ids.length) :
    evaluate_tflite_model interpreterOutput ground_truth_ids images =
      .ok ((((images.map (fun img => npArgmax (interpreterOutput img))).zip
            ground_truth_ids).countP (fun p => p.1 == p.2) : ℚ) /
          (images.length : ℚ)) ∧
    ∀ q : ℚ,
      evaluate_tflite_model interpreterOutput ground_truth_ids images =
        .ok q →
      0 ≤ q ∧ q ≤ 1 := by
  set preds := images.map (fun img => npArgmax (interpreterOutput img)) with hpreds
  have hplen : preds.length = images.length := List.length_map _ _
  have hle : preds.length ≤ ground_truth_ids.length := by omega
  have hcnt := countAccurate_eq preds ground_truth_ids hle
  have hn0 : images.length ≠ 0 := fun h => hne (List.length_eq_zero.mp h)
  have hmain : evaluate_tflite_model interpreterOutput ground_truth_ids images =
      .ok ((((preds.zip ground_truth_ids).countP (fun p => p.1 == p.2) : ℕ) : ℚ) /
        (images.length : ℚ)) := by
    rw [evaluate_tflite_model]
    simp only [← hpreds, hcnt, bind, Except.bind]
    rw [if_neg (by omega : ¬preds.length = 0), hplen]
    rfl
  refine ⟨hmain, ?_⟩
  intro q hq
  rw [hmain] at hq
  have hq2 : q = (((preds.zip ground_truth_ids).countP
      (fun p => p.1 == p.2) : ℕ) : ℚ) / (images.length : ℚ) := by
    injection hq with h
    exact h.symm
  subst hq2
  have hcle : (preds.zip ground_truth_ids).countP (fun p => p.1 == p.2) ≤
      images.length := by
    calc (preds.zip ground_truth_ids).countP (fun p => p.1 == p.2) ≤
        (preds.zip ground_truth_ids).length := List.countP_le_length _
    _ ≤ preds.length := by rw [List.length_zip]; omega
    _ = images.length := hplen
  have hpos : (0 : ℚ) < (images.length : ℚ) := by
    have : 0 < images.length := Nat.pos_of_ne_zero hn0
    exact_mod_cast this
  constructor
  · positivity
  · rw [div_le_one hpos]
    exact_mod_cast hcle

/-- Witness for C6: two images, one correct prediction, accuracy 1/2. -/
theorem evaluate_top1_accuracy_witness :
    ([0, 1] : List ℕ) ≠ [] ∧
      ([0, 1] : List ℕ).length = ([1, 1] : List ℕ).length ∧
      evaluate_tflite_model
          (fun n : ℕ => if n = 0 then [(0 : ℚ), 1] else [1, 0]) [1, 1] [0, 1] =
        .ok (((([0, 1].map (fun n : ℕ =>
              npArgmax (if n = 0 then [(0 : ℚ), 1] else [1, 0]))).zip
            [1, 1]).countP (fun p => p.1 == p.2) : ℚ) / (([0, 1] : List ℕ).length : ℚ)) :=
  ⟨by decide, by decide,
    (evaluate_top1_accuracy (fun n : ℕ => if n = 0 then [(0 : ℚ), 1] else [1, 0])
      [1, 1] [0, 1] (by decide) (by decide)).1⟩

/-! ## Configuration loading (both notebooks)

JSON parsing is external; a parsed configuration is a partial map from
keys to values (strings or numbers).  `jsonschema.validate` is abstracted
by a boolean telling whether the configuration conforms to the loaded
schema; it raises `ValidationError` on mismatch.  The cells are embedded
as `Except` programs in the exact statement order of the source: symlink
checks and JSON loads, then `jsonschema.validate`, then extraction of
every configuration value (with its own symlink checks and conversions).
The extracted record is only produced by the final `pure`, so a failing
validation yields an error and no configuration-derived variable. -/

/-- A JSON scalar of the configuration. -/
inductive ConfigVal where
  | str (s : String)
  | num (n : Int)
  deriving Repr, DecidableEq

/-- Errors a configuration cell can raise. -/
inductive NotebookError where
  | osError (e : OSErrorInfo)
  | validationError
  | keyError (key : String)
  | valueError
  | attributeError
  deriving Repr, DecidableEq

/-- `validate_symlink` with its `OSError` embedded in the cell's error
type. -/
def checkSymlink (isLink : String → Bool) (path : String) :
    Except NotebookError Unit :=
  (validate_symlink isLink path).mapError .osError

/-- `jsonschema.validate(app_configuration, json_schema)`: raises
`ValidationError` exactly when the configuration does not conform. -/
def jsonschemaValidate (schemaOk : Bool) : Except NotebookError Unit :=
  if schemaOk then .ok () else .error .validationError

/-- `app_configuration[key]`: `KeyError` when absent. -/
def getItem (cfg : String → Option ConfigVal) (key : String) :
    Except NotebookError ConfigVal :=
  match cfg key with
  | some v => .ok v
  | none => .error (.keyError key)

/-- `app_configuration.get(key, default)`. -/
def dictGet (cfg : String → Option ConfigVal) (key : String)
    (dflt : ConfigVal) : ConfigVal :=
  match cfg key with
  | some v => v
  | none => dflt

/-- A string-typed configuration value; `.replace` on a number raises
`AttributeError`. -/
def asStr : ConfigVal → Except NotebookError String
  | .str s => .ok s
  | .num _ => .error .attributeError

/-- `int(value)`: identity on numbers, parse on strings
(`ValueError` when unparseable). -/
def pyInt : ConfigVal → Except NotebookError Int
  | .num n => .ok n
  | .str s =>
    match s.toInt? with
    | some n => .ok n
    | none => .error .valueError

/-- `os.path.sep` on Linux. -/
def os_path_sep : String := "/"

/-- `value.replace(os.path.sep, "/")`. -/
def replaceSep (s : String) : String := s.replace os_path_sep "/"

/-- The variables assigned by the quantize notebook's configuration
cell. -/
structure QuantizeConfigVars where
  source_keras_model : String
  dataset_image_dir : String
  batch_size : Int
  input_tensor_size : Int
  iteration_count : Int
  output_dir : String
  evaluate_image_dir : String
  evaluate_image_extension : String
  evaluate_label_file : String
  evaluate_result_dir : String
  deriving Repr, DecidableEq

/-- The variables assigned by the export notebook's configuration
cell. -/
structure ExportConfigVars where
  cvat_username : ConfigVal
  cvat_password : ConfigVal
  cvat_project_id : ConfigVal
  export_format : ConfigVal
  export_dir : String
  deriving Repr, DecidableEq

/-- Embedding of the quantize notebook's `Load Configurations` cell, in
source order: symlink checks on the configuration and schema files,
`jsonschema.validate`, then extraction of every value. -/
def loadQuantizeConfiguration (isLink : String → Bool) (schemaOk : Bool)
    (cfg : String → Option ConfigVal) :
    Except NotebookError QuantizeConfigVars := do
  checkSymlink isLink "./configuration.json"
  checkSymlink isLink "./configuration_schema.json"
  jsonschemaValidate schemaOk
  let source_keras_model := replaceSep (← asStr (← getItem cfg "source_keras_model"))
  checkSymlink isLink source_keras_model
  let dataset_image_dir := replaceSep (← asStr (← getItem cfg "dataset_image_dir"))
  checkSymlink isLink dataset_image_dir
  let batch_size ← pyInt (← getItem cfg "batch_size")
  let input_tensor_size ← pyInt (← getItem cfg "input_tensor_size")
  let iteration_count ← pyInt (← getItem cfg "iteration_count")
  let output_dir := replaceSep (← asStr (← getItem cfg "output_dir"))
  checkSymlink isLink output_dir
  let evaluate_image_dir := replaceSep (← asStr (← getItem cfg "evaluate_image_dir"))
  checkSymlink isLink evaluate_image_dir
  let evaluate_image_extension := "*." ++ (← asStr (← getItem cfg "evaluate_image_extension"))
  let evaluate_label_file := replaceSep (← asStr (← getItem cfg "evaluate_label_file"))
  checkSymlink isLink evaluate_label_file
  let evaluate_result_dir := replaceSep (← asStr (← getItem cfg "evaluate_result_dir"))
  checkSymlink isLink evaluate_result_dir
  pure
    { source_keras_model, dataset_image_dir, batch_size, input_tensor_size,
      iteration_count, output_dir, evaluate_image_dir,
      evaluate_image_extension, evaluate_label_file, evaluate_result_dir }

/-- Embedding of the export notebook's configuration cell, in source
order. -/
def loadExportConfiguration (isLink : String → Bool) (schemaOk : Bool)
    (cfg : String → Option ConfigVal) :
    Except NotebookError ExportConfigVars := do
  checkSymlink isLink "./configuration.json"
  checkSymlink isLink "./configuration_schema_export.json"
  jsonschemaValidate schemaOk
  let cvat_username ← getItem cfg "cvat_username"
  let cvat_password := dictGet cfg "cvat_password" (.str "")
  let cvat_project_id := dictGet cfg "cvat_project_id" (.str "")
  let export_format ← getItem cfg "export_format"
  let export_dir := replaceSep (← asStr (← getItem cfg "export_dir"))
  checkSymlink isLink export_dir
  pure
    { cvat_username, cvat_password, cvat_project_id, export_format,
      export_dir }

/-- C5: in both notebooks the schema validation precedes extraction:
for every configuration that fails the schema (`schemaOk = false`), the
configuration cell yields an error — exactly `ValidationError` when the
two fixed files are not symlinks — so no configuration-derived variable
record is produced, and any continuation (download, quantization,
conversion, evaluation) sequenced after it yields the same error without
running. -/
theorem schema_failure_stops_notebooks (isLink : String → Bool)
    (cfg : String → Option ConfigVal) :
    (∀ {β : Type} (steps : QuantizeConfigVars → Except NotebookError β),
      ∃ e, loadQuantizeConfiguration isLink false cfg >>= steps = .error e) ∧
    (∀ {β : Type} (steps : ExportConfigVars → Except NotebookError β),
      ∃ e, loadExportConfiguration isLink false cfg >>= steps = .error e) ∧
    (isLink "./configuration.json" = false →
      isLink "./configuration_schema.json" = false →
      loadQuantizeConfiguration isLink false cfg = .error .validationError) ∧
    (isLink "./configuration.json" = false →
      isLink "./configuration_schema_export.json" = false →
      loadExportConfiguration isLink false cfg = .error .validationError) := by
  have hq : ∃ e, loadQuantizeConfiguration isLink false cfg = .error e := by
    rw [loadQuantizeConfiguration]
    by_cases h1 : isLink "./configuration.json" <;>
      by_cases h2 : isLink "./configuration_schema.json" <;>
      simp [checkSymlink, validate_symlink, h1, h2, Except.mapError,
        exceptOkBind, jsonschemaValidate, bind, Except.bind]
  have hx : ∃ e, loadExportConfiguration isLink false cfg = .error e := by
    rw [loadExportConfiguration]
    by_cases h1 : isLink "./configuration.json" <;>
      by_cases h2 : isLink "./configuration_schema_export.json" <;>
      simp [checkSymlink, validate_symlink, h1, h2, Except.mapError,
        exceptOkBind, jsonschemaValidate, bind, Except.bind]
  refine ⟨?_, ?_, ?_, ?_⟩
  · intro β steps
    obtain ⟨e, he⟩ := hq
    exact ⟨e, by rw [he]; rfl⟩
  · intro β steps
    obtain ⟨e, he⟩ := hx
    exact ⟨e, by rw [he]; rfl⟩
  · intro h1 h2
    rw [loadQuantizeConfiguration]
    simp [checkSymlink, validate_symlink, h1, h2, Except.mapError,
      jsonschemaValidate, bind, Except.bind]
  · intro h1 h2
    rw [loadExportConfiguration]
    simp [checkSymlink, validate_symlink, h1, h2, Except.mapError,
      jsonschemaValidate, bind, Except.bind]

/-- Witness for C5 at a concrete filesystem (no symlinks) and an empty
configuration: the failing validation yields exactly
`ValidationError`. -/
theorem schema_failure_stops_notebooks_witness :
    loadQuantizeConfiguration (fun _ => false) false (fun _ => none) =
      .error .validationError :=
  (schema_failure_stops_notebooks (fun _ => false) (fun _ => none)).2.2.1
    rfl rfl

end VisionSensingApp
